import Mathlib

/-!
Shallow embedding of the metaMS LC-MS annotation pipeline glue code
(`metaMS/lipid_metadata_prepper.py`, `metaMS/lcms_functions.py`,
`metaMS/lcms_lipidomics_workflow.py`, `metaMS/lcms_metabolomics_workflow.py`)
together with theorems settling the specification claims about it.

Masses are modelled as rationals (the Python code computes with floats; every
property at stake is order/arithmetic based and exact on the concrete inputs
used).  Fallible Python code is modelled with `Except String`.
-/

deriving instance DecidableEq for Except

namespace MetaMS

/-- numpy-style indexing into a 1-d array: a negative index wraps once by the
length, an index out of range raises `IndexError` (modelled as `none`). -/
def npGet (A : List ℚ) (i : Int) : Option ℚ :=
  let j : Int := if i < 0 then i + A.length else i
  if 0 ≤ j then A.get? j.toNat else none

/-- `numpy.searchsorted(A, t)` with the default `side='left'` on a sorted
array: the number of entries strictly below `t` (the left insertion point). -/
def searchsorted (A : List ℚ) (t : ℚ) : Nat :=
  A.countP (fun a => decide (a < t))

/-- `np.clip(x, lo, hi)`: the lower bound is applied first, the upper bound
last (so `np.clip(0, 1, -1) = -1`). -/
def npClip (x lo hi : Int) : Int :=
  let y := if x < lo then lo else x
  if hi < y then hi else y

/-- `lipid_metadata_prepper.find_closest` for one target value:
`idx = A.searchsorted(target)`, `idx = np.clip(idx, 1, len(A)-1)`,
`left = A[idx-1]`, `right = A[idx]`,
`idx -= target - left < right - target`.
Fancy indexing raises `IndexError` when an (already wrapped) index is out of
range. -/
def find_closest (A : List ℚ) (t : ℚ) : Except String Int :=
  let idx0 : Int := searchsorted A t
  let idx : Int := npClip idx0 1 ((A.length : Int) - 1)
  match npGet A (idx - 1), npGet A idx with
  | some left, some right =>
      .ok (idx - (if t - left < right - t then 1 else 0))
  | _, _ => .error "IndexError"

/-- The value the caller reads back: `A[find_closest(A, target)]`
(`get_lipid_library` indexes `mz_obs_arr` with the returned index). -/
def closestVal (A : List ℚ) (t : ℚ) : Except String ℚ :=
  match find_closest A t with
  | .ok i =>
      match npGet A i with
      | some v => .ok v
      | none => .error "IndexError"
  | .error e => .error e

/-- A row of the `lipidMassSpectrumObject` reference table as read by
`get_lipid_library` (`SELECT id, polarity, precursor_mz FROM
lipidMassSpectrumObject`). -/
structure RefEntry where
  id : Nat
  polarity : String
  precursor_mz : ℚ
deriving DecidableEq, Repr

/-- `mz_list.sort_values(by='mz_obs')`: the observed-mass column in ascending
order. -/
def sortMz (mzList : List ℚ) : List ℚ := mzList.mergeSort

/-- `mz_all[mz_all['polarity'] == polarity]` followed by
`sort_values(by='precursor_mz')`: only reference entries of the requested
polarity are ever compared against the observed masses. -/
def comparedEntries (refs : List RefEntry) (polarity : String) : List RefEntry :=
  (refs.filter (fun e => e.polarity == polarity)).mergeSort
    (fun e1 e2 => decide (e1.precursor_mz ≤ e2.precursor_mz))

/-- `(mz_subset['precursor_mz'] - mz_subset['closest_mz_obs']) /
mz_subset['precursor_mz'] * 1e6`. -/
def ppm_error (ref obs : ℚ) : ℚ := (ref - obs) / ref * 1000000

/-- The nearest-neighbour lookup plus ppm filter of `get_lipid_library`
(lines 252-256): each reference entry is paired with the observed mass at the
index returned by `find_closest` and kept iff the absolute ppm error is within
`mz_tol_ppm`.  The numpy indexing inside the lookup can raise `IndexError`. -/
def ppmFilter (A : List ℚ) (tol : ℚ) : List RefEntry → Except String (List RefEntry)
  | [] => .ok []
  | e :: rest => do
      let v ← closestVal A e.precursor_mz
      let rest' ← ppmFilter A tol rest
      if |ppm_error e.precursor_mz v| ≤ tol then .ok (e :: rest') else .ok rest'

/-- The retained reference rows of `get_lipid_library`: polarity filter, sort,
nearest-neighbour match against the sorted observed masses, ppm filter. -/
def retainedEntries (refs : List RefEntry) (mzList : List ℚ) (polarity : String)
    (tol : ℚ) : Except String (List RefEntry) :=
  ppmFilter (sortMz mzList) tol (comparedEntries refs polarity)

/-- `SELECT * FROM lipidMassSpectrumObject WHERE id IN {tuple(ids)}`: Python
renders the id list with `str(tuple(...))`, so a singleton renders as
`(5,)` which SQLite rejects (`OperationalError`), while the empty tuple
renders as `()` which SQLite accepts as an empty IN-list. -/
def sqlSelectIn (refs : List RefEntry) (ids : List Nat) : Except String (List RefEntry) :=
  if ids.length = 1 then .error "OperationalError"
  else .ok (refs.filter (fun e => ids.contains e.id))

/-- The glue pipeline of `get_lipid_library` up to the row set handed to the
FlashEntropy build: the metadata (`lipidTree`) fetch, the per-spectrum
reformatting and the external `FlashEntropySearch.build_index` are downstream
consumers of this row set and are abstracted away. -/
def get_lipid_library (refs : List RefEntry) (mzList : List ℚ) (polarity : String)
    (tol : ℚ) : Except String (List RefEntry) := do
  let retained ← retainedEntries refs mzList polarity tol
  let fetched ← sqlSelectIn refs (retained.map (fun e => e.id))
  .ok fetched

/-- The tier-parameter validation at the head of `_to_flashentropy` (lines
86-104): if either of `min_ms2_difference_in_da` / `max_ms2_tolerance_in_da`
is supplied, both must be, and the former must equal exactly twice the
latter; otherwise a `ValueError` is raised. -/
def tierParamCheck : Option ℚ → Option ℚ → Except String Unit
  | none, none => .ok ()
  | some _, none =>
      .error "Both min_ms2_difference_in_da and max_ms2_tolerance_in_da must be specified."
  | none, some _ =>
      .error "Both min_ms2_difference_in_da and max_ms2_tolerance_in_da must be specified."
  | some d, some mt =>
      if d ≠ 2 * mt then
        .error "The values of min_ms2_difference_in_da must be exactly 2x max_ms2_tolerance_in_da."
      else .ok ()

/-- `_to_flashentropy`: the tier-parameter validation runs first, before any
spectrum is touched; the spectrum reformatting loop and the external
`FlashEntropySearch` construction and `build_index` call are abstracted to the
identity on the library rows. -/
def to_flashentropy (lib : List RefEntry) (minDiff maxTol : Option ℚ) :
    Except String (List RefEntry) := do
  let _ ← tierParamCheck minDiff maxTol
  .ok lib

/-- One row of `myLCMSobj.scan_df` as used by the scan-routing code: the scan
number and its acquisition text. -/
structure ScanEntry where
  scan : Nat
  scan_text : String
deriving DecidableEq, Repr

/-- A value of the scan-translator table as parsed from toml: the filter is a
plain string, with `""` documented as match-all. -/
structure RawTransEntry where
  scan_filter : String
  resolution : String
deriving DecidableEq, Repr

/-- A value of the loaded scan-translator table: `load_scan_translator`
rewrites the empty-string filter to `None`. -/
structure TransEntry where
  scan_filter : Option String
  resolution : String
deriving DecidableEq, Repr

/-- The built-in default table used when no translator path is supplied:
`{"ms2": {"scan_filter": "", "resolution": "high"}}`. -/
def defaultScanTranslator : List (String × RawTransEntry) := [("ms2", ⟨"", "high"⟩)]

/-- `lcms_functions.load_scan_translator`: fall back to the default table when
`None` is passed, then rewrite every `scan_filter == ""` to `None`. -/
def load_scan_translator (raw : Option (List (String × RawTransEntry))) :
    List (String × TransEntry) :=
  (raw.getD defaultScanTranslator).map
    (fun kv =>
      (kv.1, ⟨if kv.2.scan_filter = "" then none else some kv.2.scan_filter,
        kv.2.resolution⟩))

/-- `Series.str.contains(pat)` on a metacharacter-free pattern: substring
containment (pandas applies `re.search`, which on a literal pattern is
substring search). -/
def strContains (text pat : String) : Bool := decide (pat.toList <:+: text.toList)

/-- `scan_df[scan_df.scan_text.str.contains(pat)]`. -/
def selectScans (scanDf : List ScanEntry) (pat : String) : List ScanEntry :=
  scanDf.filter (fun s => strContains s.scan_text pat)

/-- The per-key loop of `check_scan_translator` (lines 114-131): assert the key
is a known parameter profile, apply the filter — `str.contains(None)` raises
`TypeError` because `load_scan_translator` rewrote a match-all filter to
`None` — raise a `ValueError` naming the key when zero scans match, and
accumulate every selected scan number. -/
def checkTranslatorLoop (paramKeys : List String) (scanDf : List ScanEntry) :
    List (String × TransEntry) → Except String (List Nat)
  | [] => .ok []
  | (k, e) :: rest =>
      if k ∈ paramKeys then
        match e.scan_filter with
        | none => .error "TypeError: first argument must be string or compiled pattern"
        | some pat =>
            let sub := selectScans scanDf pat
            if sub.length = 0 then
              .error ("No scans pulled out by scan translator for parameter key: " ++ k)
            else do
              let rest' ← checkTranslatorLoop paramKeys scanDf rest
              .ok (sub.map (fun s => s.scan) ++ rest')
      else .error "AssertionError"

/-- `lcms_functions.check_scan_translator`: load the table, run the per-key
loop, then raise the fixed message `Overlapping scans pulled out by scan
translator` when `len(set(scans)) != len(scans)`. -/
def check_scan_translator (paramKeys : List String) (scanDf : List ScanEntry)
    (raw : Option (List (String × RawTransEntry))) : Except String Unit := do
  let scans ← checkTranslatorLoop paramKeys scanDf (load_scan_translator raw)
  if scans.dedup.length ≠ scans.length then
    .error "Overlapping scans pulled out by scan translator"
  else .ok ()

/-- The scan-bucket collection of `process_ms2` for one resolution tier: keys
of that resolution contribute, in table order, the scans matching their filter
(`None` selects the whole tandem-scan frame), restricted to scans with a
loaded spectrum (`x in myLCMSobj._ms.keys()`). -/
def routedScans (table : List (String × TransEntry)) (resolution : String)
    (ms2df : List ScanEntry) (msKeys : List Nat) : List Nat :=
  (table.filter (fun kv => kv.2.resolution == resolution)).flatMap
    (fun kv =>
      let sel : List ScanEntry :=
        match kv.2.scan_filter with
        | some pat => selectScans ms2df pat
        | none => ms2df
      (sel.map (fun s => s.scan)).filter (fun x => msKeys.contains x))

/-- `process_ms2` invokes the low-resolution search only when the collected
low-resolution bucket is nonempty (`if len(ms2_scans_oi_lr) > 0`). -/
def lowSearchInvoked (table : List (String × TransEntry)) (ms2df : List ScanEntry)
    (msKeys : List Nat) : Bool :=
  (routedScans table "low" ms2df msKeys).length > 0

/-- The two dispatch strategies of the LC workflows. -/
inductive DispatchStrategy where
  | sequential : DispatchStrategy
  | parallel : Nat → DispatchStrategy
deriving DecidableEq, Repr

/-- The dispatch branch shared by `run_lcms_lipidomics_workflow` and (per
polarity group) `run_lcms_metabolomics_workflow`:
`if cores == 1 or len(files_list) == 1:` run the loop in the caller,
`elif cores > 1:` run under a pool of `cores` workers.  A request of
`cores = 0` with several files falls through both branches (no dispatch). -/
def chooseDispatch (cores numFiles : Nat) : Option DispatchStrategy :=
  if cores = 1 ∨ numFiles = 1 then some .sequential
  else if cores > 1 then some (.parallel cores) else none

/-- The dispatch code of both workflows contains no branch on the input file
format: no format sets an exclusive-access flag, so the flag of the
specification is constantly false. -/
def requiresExclusiveAccess (_fileExtension : String) : Bool := false

/-- Outcome of one wrapped per-file job: the lines echoed at the job boundary
and the value returned to (or the exception propagated into) the collector. -/
structure JobOutcome where
  log : List String
  outcome : Except String String
deriving DecidableEq, Repr

/-- `lcms_metabolomics_workflow.process_complete_workflow`: the job body
(`run_lcmetab_ms1`, `process_ms2`, `export_results`) is abstracted as `body`;
on success the wrapper returns `f"Completed: {output_path}"`, and on an
exception it echoes `f"Error processing {file_in}: ..."` and then RE-RAISES
the exception (`raise`). -/
def process_complete_workflow (file_in output_path : String)
    (body : Except String Unit) : JobOutcome :=
  match body with
  | .ok _ => ⟨[], .ok ("Completed: " ++ output_path)⟩
  | .error e => ⟨["Error processing " ++ file_in ++ ": " ++ e], .error e⟩

/-- Batch-level result collection,
`list(executor.map(lambda arg: process_complete_workflow(arg), args))` (and
likewise the sequential `for` loop): results are collected in order and the
first exception re-raised by a job propagates out of the collection. -/
def batchOutcome : List JobOutcome → Except String (List String)
  | [] => .ok []
  | j :: rest => do
      let r ← j.outcome
      let rs ← batchOutcome rest
      .ok (r :: rs)

/-- The per-polarity observed-mass slots of `prep_metadata`'s `metadata` dict,
initialised to `{"positive": None, "negative": None}`. -/
structure MzMeta where
  positive : Option (List ℚ)
  negative : Option (List ℚ)
deriving DecidableEq, Repr

/-- One `metadata["mzs"].update(d)` step for a per-file dict
`d = {polarity: precursor_mz_list}` (`run_lipid_sp_ms1` returns a single-key
dict): `dict.update` REPLACES the value stored at the polarity key.  A key
other than the two polarities is stored but never read downstream. -/
def updateMzs (m : MzMeta) (d : String × List ℚ) : MzMeta :=
  if d.1 = "positive" then { m with positive := some d.2 }
  else if d.1 = "negative" then { m with negative := some d.2 }
  else m

/-- The `for d in mz_dicts: metadata["mzs"].update(d)` loop of
`lcms_lipidomics_workflow.prep_metadata`. -/
def prep_metadata_mzs (mz_dicts : List (String × List ℚ)) : MzMeta :=
  mz_dicts.foldl updateMzs ⟨none, none⟩

/-- The `scans_pulled_out` accumulation of `check_scan_translator`: every scan
selected by any key's filter, in table order. -/
def scansPulledOut (scanDf : List ScanEntry) (table : List (String × RawTransEntry)) :
    List Nat :=
  table.flatMap (fun kv => (selectScans scanDf kv.2.scan_filter).map (fun s => s.scan))

/-- On a sorted array the left insertion point bounds from above exactly the
indices holding values strictly below the target. -/
theorem searchsorted_get_lt (t : ℚ) :
    ∀ A : List ℚ, A.Sorted (· ≤ ·) → ∀ i (hi : i < A.length),
      i < searchsorted A t → A.get ⟨i, hi⟩ < t := by
  intro A
  induction A with
  | nil => intro _ i hi; simp at hi
  | cons a tl ih =>
    intro hs i hi hlt
    rw [List.sorted_cons] at hs
    rcases i with _ | i
    · show a < t
      by_contra hge
      push_neg at hge
      have hz : searchsorted (a :: tl) t = searchsorted tl t := by
        simp [searchsorted, List.countP_cons, not_lt.mpr hge]
      rw [hz] at hlt
      obtain ⟨x, hx, hxt⟩ := List.countP_pos_iff.mp hlt
      have hax : a ≤ x := hs.1 x hx
      rw [decide_eq_true_eq] at hxt
      exact absurd (lt_of_le_of_lt hax hxt) (not_lt.mpr hge)
    · have htl : i < searchsorted tl t := by
        have hc := List.countP_cons (fun a => decide (a < t)) a tl
        simp only [searchsorted] at hlt ⊢
        rw [hc] at hlt
        split at hlt <;> omega
      exact ih hs.2 i (by simpa using hi) htl

/-- On a sorted array every index at or past the left insertion point holds a
value at least the target. -/
theorem searchsorted_le_get (t : ℚ) :
    ∀ A : List ℚ, A.Sorted (· ≤ ·) → ∀ i (hi : i < A.length),
      searchsorted A t ≤ i → t ≤ A.get ⟨i, hi⟩ := by
  intro A
  induction A with
  | nil => intro _ i hi; simp at hi
  | cons a tl ih =>
    intro hs i hi hle
    rw [List.sorted_cons] at hs
    rcases i with _ | i
    · show t ≤ a
      by_contra hlt
      push_neg at hlt
      have hz : searchsorted (a :: tl) t = 0 := Nat.le_zero.mp hle
      simp only [searchsorted] at hz
      rw [List.countP_cons] at hz
      simp [hlt] at hz
    · by_cases hat : a < t
      · have htl : searchsorted tl t ≤ i := by
          have hc := List.countP_cons (fun a => decide (a < t)) a tl
          simp only [searchsorted] at hle ⊢
          rw [hc] at hle
          simp [hat] at hle
          omega
        exact ih hs.2 i (by simpa using hi) htl
      · push_neg at hat
        have hmem : tl.get ⟨i, by simpa using hi⟩ ∈ tl := List.get_mem _ _ _
        exact le_trans hat (hs.1 _ hmem)

/-- Arithmetic kernel of the closest-value analysis: the candidate the code
keeps (`left` when `target - left < right - target`, `right` otherwise) is at
least as close to the target as any other array element, and any element at
least as close lies at or below it. -/
theorem choice_le_all (t cL cR x v : ℚ)
    (hlr : cL ≤ cR)
    (hbr : x ≤ cL ∨ cR ≤ x)
    (hF3 : t ≤ cR ∨ x ≤ cR)
    (hF4 : cL < t ∨ cL ≤ x)
    (hv : v = if t - cL < cR - t then cL else cR) :
    |v - t| ≤ |x - t| ∧ (|x - t| ≤ |v - t| → x ≤ v) := by
  split_ifs at hv with hb <;> rw [hv] <;> constructor
  · rcases hbr with hx | hx <;> rcases hF3 with h3 | h3 <;> rcases hF4 with h4 | h4 <;>
      rcases abs_cases (cL - t) with ⟨e1, s1⟩ | ⟨e1, s1⟩ <;>
      rcases abs_cases (x - t) with ⟨e2, s2⟩ | ⟨e2, s2⟩ <;>
      rw [e1, e2] <;> linarith
  · intro hxt
    rcases hbr with hx | hx <;> rcases hF3 with h3 | h3 <;> rcases hF4 with h4 | h4 <;>
      rcases abs_cases (cL - t) with ⟨e1, s1⟩ | ⟨e1, s1⟩ <;>
      rcases abs_cases (x - t) with ⟨e2, s2⟩ | ⟨e2, s2⟩ <;>
      rw [e1, e2] at hxt <;> linarith
  · rcases hbr with hx | hx <;> rcases hF3 with h3 | h3 <;> rcases hF4 with h4 | h4 <;>
      rcases abs_cases (cR - t) with ⟨e1, s1⟩ | ⟨e1, s1⟩ <;>
      rcases abs_cases (x - t) with ⟨e2, s2⟩ | ⟨e2, s2⟩ <;>
      rw [e1, e2] <;> linarith
  · intro hxt
    rcases hbr with hx | hx <;> rcases hF3 with h3 | h3 <;> rcases hF4 with h4 | h4 <;>
      rcases abs_cases (cR - t) with ⟨e1, s1⟩ | ⟨e1, s1⟩ <;>
      rcases abs_cases (x - t) with ⟨e2, s2⟩ | ⟨e2, s2⟩ <;>
      rw [e1, e2] at hxt <;> linarith

/-- Unfolds `closestVal` once the index and fetched value are known. -/
theorem closestVal_eq_ok (A : List ℚ) (t : ℚ) (i : Int) (v : ℚ)
    (h1 : find_closest A t = .ok i) (h2 : npGet A i = some v) :
    closestVal A t = .ok v := by
  unfold closestVal
  rw [h1]
  show (match npGet A i with
        | some v => Except.ok v
        | none => Except.error "IndexError") = Except.ok v
  rw [h2]

/-- On a sorted nonempty array `closestVal` succeeds and returns an element of
the array minimising the distance to the target; every element at least as
close lies at or below the returned one (ties resolve to the larger value). -/
theorem closestVal_min (A : List ℚ) (t : ℚ) (hs : A.Sorted (· ≤ ·))
    (hne : A ≠ []) :
    ∃ v, closestVal A t = .ok v ∧ v ∈ A ∧
      (∀ x ∈ A, |v - t| ≤ |x - t|) ∧ (∀ x ∈ A, |x - t| ≤ |v - t| → x ≤ v) := by
  rcases Nat.lt_or_ge A.length 2 with hn | hn
  · have h1 : A.length = 1 := by
      have := List.length_pos.mpr hne
      omega
    obtain ⟨a, rfl⟩ := List.length_eq_one.mp h1
    have hcv : closestVal [a] t = .ok a := by
      by_cases hat : a < t <;> by_cases hb : t - a < a - t <;>
        ·  unfold closestVal find_closest
           norm_num [searchsorted, npClip, npGet, hat, hb]
    refine ⟨a, hcv, List.mem_singleton_self a, ?_, ?_⟩
    · intro x hx
      rw [List.mem_singleton.mp hx]
    · intro x hx _
      rw [List.mem_singleton.mp hx]
  · set n := A.length with hnd
    set c0 := searchsorted A t with hc0d
    have hc0n : c0 ≤ n := by rw [hc0d, hnd]; exact List.countP_le_length _
    set K := min (max c0 1) (n - 1) with hKd
    have hKfacts : 1 ≤ K ∧ K ≤ n - 1 ∧ (K < c0 → K = n - 1) ∧
        (c0 < K → c0 = 0 ∧ K = 1) := by
      rw [hKd, Nat.min_def, Nat.max_def]
      split_ifs <;> omega
    obtain ⟨hK1, hKn1, hKc1, hKc2⟩ := hKfacts
    have hKlt : K < n := by omega
    have hK1n : K - 1 < n := by omega
    set cL := A.get ⟨K - 1, hK1n⟩ with hLd
    set cR := A.get ⟨K, hKlt⟩ with hRd
    have hclip : npClip (c0 : Int) 1 ((n : Int) - 1) = (K : Int) := by
      simp only [npClip]
      rw [hKd, Nat.min_def, Nat.max_def]
      split_ifs <;> omega
    have hgl : npGet A ((K : Int) - 1) = some cL := by
      simp only [npGet]
      have h0 : ¬((K : Int) - 1 < 0) := by omega
      have h1 : (0 : Int) ≤ (K : Int) - 1 := by omega
      rw [if_neg h0, if_pos h1]
      have h2 : ((K : Int) - 1).toNat = K - 1 := by omega
      rw [h2, List.get?_eq_get hK1n]
    have hgr : npGet A (K : Int) = some cR := by
      simp only [npGet]
      have h0 : ¬((K : Int) < 0) := by omega
      have h1 : (0 : Int) ≤ (K : Int) := by omega
      rw [if_neg h0, if_pos h1]
      have h2 : ((K : Int)).toNat = K := by omega
      rw [h2, List.get?_eq_get hKlt]
    have hlr : cL ≤ cR := by
      rw [hLd, hRd]
      exact hs.rel_get_of_le (by simp [Fin.mk_le_mk])
    have hfc : find_closest A t =
        .ok ((K : Int) - (if t - cL < cR - t then 1 else 0)) := by
      simp only [find_closest]
      rw [← hc0d, ← hnd, hclip, hgl, hgr]
    have hfacts : ∀ x ∈ A, (x ≤ cL ∨ cR ≤ x) ∧ (t ≤ cR ∨ x ≤ cR) ∧
        (cL < t ∨ cL ≤ x) := by
      intro x hx
      obtain ⟨⟨i, hilt⟩, rfl⟩ := List.mem_iff_get.mp hx
      refine ⟨?_, ?_, ?_⟩
      · rcases le_or_lt i (K - 1) with h | h
        · exact Or.inl (hLd ▸ hs.rel_get_of_le (by simp [Fin.mk_le_mk]; omega))
        · exact Or.inr (hRd ▸ hs.rel_get_of_le (by simp [Fin.mk_le_mk]; omega))
      · rcases le_or_lt c0 K with h | h
        · exact Or.inl (hRd ▸ searchsorted_le_get t A hs K hKlt (hc0d ▸ h))
        · have hKn : K = n - 1 := hKc1 h
          have : i ≤ K := by rw [hKn]; rw [hnd]; omega
          exact Or.inr (hRd ▸ hs.rel_get_of_le (by simp [Fin.mk_le_mk]; omega))
      · rcases le_or_lt K c0 with h | h
        · exact Or.inl (hLd ▸ searchsorted_get_lt t A hs (K - 1) hK1n
            (hc0d ▸ (by omega)))
        · obtain ⟨hc00, hK1'⟩ := hKc2 h
          exact Or.inr (hLd ▸ hs.rel_get_of_le (by simp [Fin.mk_le_mk]; omega))
    by_cases hb : t - cL < cR - t
    · have hi : find_closest A t = .ok ((K : Int) - 1) := by rw [hfc, if_pos hb]
      have hcv := closestVal_eq_ok A t ((K : Int) - 1) cL hi hgl
      have hmain : ∀ x ∈ A, |cL - t| ≤ |x - t| ∧ (|x - t| ≤ |cL - t| → x ≤ cL) := by
        intro x hx
        obtain ⟨hbr, hF3, hF4⟩ := hfacts x hx
        exact choice_le_all t cL cR x cL hlr hbr hF3 hF4 (if_pos hb).symm
      exact ⟨cL, hcv, hLd ▸ List.get_mem _ _ _,
        fun x hx => (hmain x hx).1, fun x hx => (hmain x hx).2⟩
    · have hi : find_closest A t = .ok (K : Int) := by rw [hfc, if_neg hb]; ring_nf
      have hcv := closestVal_eq_ok A t (K : Int) cR hi hgr
      have hmain : ∀ x ∈ A, |cR - t| ≤ |x - t| ∧ (|x - t| ≤ |cR - t| → x ≤ cR) := by
        intro x hx
        obtain ⟨hbr, hF3, hF4⟩ := hfacts x hx
        exact choice_le_all t cL cR x cR hlr hbr hF3 hF4 (if_neg hb).symm
      exact ⟨cR, hcv, hRd ▸ List.get_mem _ _ _,
        fun x hx => (hmain x hx).1, fun x hx => (hmain x hx).2⟩

theorem exceptBind_ok {β γ : Type} (a : β) (f : β → Except String γ) :
    ((Except.ok a : Except String β) >>= f) = f a := rfl

theorem exceptBind_err {β γ : Type} (s : String) (f : β → Except String γ) :
    ((Except.error s : Except String β) >>= f) = Except.error s := rfl

theorem sortMz_sorted (mzList : List ℚ) : (sortMz mzList).Sorted (· ≤ ·) :=
  List.sorted_mergeSort' mzList

theorem sortMz_mem (mzList : List ℚ) (x : ℚ) : x ∈ sortMz mzList ↔ x ∈ mzList :=
  (List.mergeSort_perm mzList _).mem_iff

theorem sortMz_ne_nil (mzList : List ℚ) (h : mzList ≠ []) : sortMz mzList ≠ [] := by
  intro hc
  have hl := (List.mergeSort_perm mzList (fun a b => a ≤ b)).length_eq
  rw [sortMz] at hc
  rw [hc] at hl
  exact h (List.length_eq_zero.mp hl.symm)

theorem comparedEntries_mem (refs : List RefEntry) (p : String) (e : RefEntry) :
    e ∈ comparedEntries refs p ↔ e ∈ refs ∧ e.polarity = p := by
  rw [comparedEntries, (List.mergeSort_perm _ _).mem_iff, List.mem_filter]
  simp

/-- Equal distance to the reference mass gives equal absolute ppm error. -/
theorem ppm_abs_congr (mz w1 w2 : ℚ) (h : |w1 - mz| = |w2 - mz|) :
    |ppm_error mz w1| = |ppm_error mz w2| := by
  unfold ppm_error
  rw [abs_mul, abs_mul, abs_div, abs_div, abs_sub_comm mz w1, abs_sub_comm mz w2, h]

/-- On a sorted nonempty observed-mass array the nearest-neighbour / ppm
filter succeeds and keeps exactly the entries whose closest observed mass is
within tolerance. -/
theorem ppmFilter_ok (A : List ℚ) (tol : ℚ) (hs : A.Sorted (· ≤ ·))
    (hne : A ≠ []) :
    ∀ Es : List RefEntry, ∃ L, ppmFilter A tol Es = .ok L ∧
      ∀ e, e ∈ L ↔ e ∈ Es ∧ ∃ v, closestVal A e.precursor_mz = .ok v ∧
        |ppm_error e.precursor_mz v| ≤ tol := by
  intro Es
  induction Es with
  | nil => exact ⟨[], rfl, by simp⟩
  | cons e rest ih =>
    obtain ⟨L', hL', hmem⟩ := ih
    obtain ⟨v, hv, -, -, -⟩ := closestVal_min A e.precursor_mz hs hne
    by_cases hc : |ppm_error e.precursor_mz v| ≤ tol
    · refine ⟨e :: L', ?_, ?_⟩
      · simp only [ppmFilter, hv, hL', exceptBind_ok]
        rw [if_pos hc]
      · intro x
        simp only [List.mem_cons, hmem]
        constructor
        · rintro (rfl | ⟨hx, hP⟩)
          · exact ⟨Or.inl rfl, v, hv, hc⟩
          · exact ⟨Or.inr hx, hP⟩
        · rintro ⟨rfl | hx, hP⟩
          · exact Or.inl rfl
          · exact Or.inr ⟨hx, hP⟩
    · refine ⟨L', ?_, ?_⟩
      · simp only [ppmFilter, hv, hL', exceptBind_ok]
        rw [if_neg hc]
      · intro x
        simp only [hmem, List.mem_cons]
        constructor
        · rintro ⟨hx, hP⟩
          exact ⟨Or.inr hx, hP⟩
        · rintro ⟨rfl | hx, hP⟩
          · obtain ⟨v', hv', hc'⟩ := hP
            rw [hv] at hv'
            cases hv'
            exact absurd hc' hc
          · exact ⟨hx, hP⟩

theorem dedup_length_eq_iff {l : List Nat} : l.dedup.length = l.length ↔ l.Nodup := by
  constructor
  · intro h
    have hsub : List.Sublist l.dedup l := l.dedup_sublist
    have heq := hsub.eq_of_length h
    rw [← heq]
    exact l.nodup_dedup
  · intro h
    rw [List.dedup_eq_self.mpr h]

/-- When all keys are known, no filter is the match-all rewrite target, and
every filter selects at least one scan, the per-key loop succeeds and returns
the accumulated scans. -/
theorem checkLoop_ok (paramKeys : List String) (scanDf : List ScanEntry) :
    ∀ table : List (String × RawTransEntry),
      (∀ kv ∈ table, kv.1 ∈ paramKeys) →
      (∀ kv ∈ table, kv.2.scan_filter ≠ "") →
      (∀ kv ∈ table, selectScans scanDf kv.2.scan_filter ≠ []) →
      checkTranslatorLoop paramKeys scanDf (load_scan_translator (some table)) =
        .ok (scansPulledOut scanDf table) := by
  intro table
  induction table with
  | nil => intro _ _ _; rfl
  | cons kv rest ih =>
    intro hkeys hfil hsel
    have hk : kv.1 ∈ paramKeys := hkeys kv (List.mem_cons_self _ _)
    have hf : kv.2.scan_filter ≠ "" := hfil kv (List.mem_cons_self _ _)
    have hsne : selectScans scanDf kv.2.scan_filter ≠ [] :=
      hsel kv (List.mem_cons_self _ _)
    have hrest := ih (fun x hx => hkeys x (List.mem_cons_of_mem _ hx))
      (fun x hx => hfil x (List.mem_cons_of_mem _ hx))
      (fun x hx => hsel x (List.mem_cons_of_mem _ hx))
    have hload : load_scan_translator (some (kv :: rest)) =
        (kv.1, ⟨some kv.2.scan_filter, kv.2.resolution⟩) ::
          load_scan_translator (some rest) := by
      simp [load_scan_translator, hf]
    rw [hload]
    simp only [checkTranslatorLoop, if_pos hk]
    rw [if_neg (by simpa [List.length_eq_zero] using hsne)]
    rw [hrest, exceptBind_ok]
    simp [scansPulledOut]

/-- If some key's filter selects zero scans, the per-key loop raises (whatever
earlier failure may fire first). -/
theorem checkLoop_err (paramKeys : List String) (scanDf : List ScanEntry) :
    ∀ table : List (String × RawTransEntry),
      (∃ kv ∈ table, selectScans scanDf kv.2.scan_filter = []) →
      ∃ msg, checkTranslatorLoop paramKeys scanDf (load_scan_translator (some table)) =
        .error msg := by
  intro table
  induction table with
  | nil => rintro ⟨kv, h, -⟩; simp at h
  | cons kv rest ih =>
    rintro ⟨kv', hkv', hsel'⟩
    by_cases hk : kv.1 ∈ paramKeys
    · by_cases hf : kv.2.scan_filter = ""
      · refine ⟨"TypeError: first argument must be string or compiled pattern", ?_⟩
        have hload : load_scan_translator (some (kv :: rest)) =
            (kv.1, ⟨none, kv.2.resolution⟩) :: load_scan_translator (some rest) := by
          simp [load_scan_translator, hf]
        rw [hload]
        simp only [checkTranslatorLoop, if_pos hk]
      · have hload : load_scan_translator (some (kv :: rest)) =
            (kv.1, ⟨some kv.2.scan_filter, kv.2.resolution⟩) ::
              load_scan_translator (some rest) := by
          simp [load_scan_translator, hf]
        by_cases hempty : selectScans scanDf kv.2.scan_filter = []
        · refine ⟨"No scans pulled out by scan translator for parameter key: " ++ kv.1, ?_⟩
          rw [hload]
          simp only [checkTranslatorLoop, if_pos hk]
          rw [if_pos (by simp [hempty])]
        · have hbad : ∃ x ∈ rest, selectScans scanDf x.2.scan_filter = [] := by
            rcases List.mem_cons.mp hkv' with rfl | hx
            · exact absurd hsel' hempty
            · exact ⟨kv', hx, hsel'⟩
          obtain ⟨msg, hmsg⟩ := ih hbad
          refine ⟨msg, ?_⟩
          rw [hload]
          simp only [checkTranslatorLoop, if_pos hk]
          rw [if_neg (by simpa [List.length_eq_zero] using hempty)]
          rw [hmsg, exceptBind_err]
    · refine ⟨"AssertionError", ?_⟩
      have hload : load_scan_translator (some (kv :: rest)) =
          (kv.1, ⟨if kv.2.scan_filter = "" then none else some kv.2.scan_filter,
            kv.2.resolution⟩) :: load_scan_translator (some rest) := by
        simp [load_scan_translator]
      rw [hload]
      simp only [checkTranslatorLoop, if_neg hk]

/-- If some key carries the documented match-all filter `""`, the per-key loop
always raises: the filter was rewritten to `None` and `str.contains(None)` is
a `TypeError` (or an earlier key fails first). -/
theorem checkLoop_matchall_err (paramKeys : List String) (scanDf : List ScanEntry) :
    ∀ table : List (String × RawTransEntry),
      (∃ kv ∈ table, kv.2.scan_filter = "") →
      ∃ msg, checkTranslatorLoop paramKeys scanDf (load_scan_translator (some table)) =
        .error msg := by
  intro table
  induction table with
  | nil => rintro ⟨kv, h, -⟩; simp at h
  | cons kv rest ih =>
    rintro ⟨kv', hkv', hfil'⟩
    by_cases hk : kv.1 ∈ paramKeys
    · by_cases hf : kv.2.scan_filter = ""
      · refine ⟨"TypeError: first argument must be string or compiled pattern", ?_⟩
        have hload : load_scan_translator (some (kv :: rest)) =
            (kv.1, ⟨none, kv.2.resolution⟩) :: load_scan_translator (some rest) := by
          simp [load_scan_translator, hf]
        rw [hload]
        simp only [checkTranslatorLoop, if_pos hk]
      · have hload : load_scan_translator (some (kv :: rest)) =
            (kv.1, ⟨some kv.2.scan_filter, kv.2.resolution⟩) ::
              load_scan_translator (some rest) := by
          simp [load_scan_translator, hf]
        have hbad : ∃ x ∈ rest, x.2.scan_filter = "" := by
          rcases List.mem_cons.mp hkv' with rfl | hx
          · exact absurd hfil' hf
          · exact ⟨kv', hx, hfil'⟩
        by_cases hempty : selectScans scanDf kv.2.scan_filter = []
        · refine ⟨"No scans pulled out by scan translator for parameter key: " ++ kv.1, ?_⟩
          rw [hload]
          simp only [checkTranslatorLoop, if_pos hk]
          rw [if_pos (by simp [hempty])]
        · obtain ⟨msg, hmsg⟩ := ih hbad
          refine ⟨msg, ?_⟩
          rw [hload]
          simp only [checkTranslatorLoop, if_pos hk]
          rw [if_neg (by simpa [List.length_eq_zero] using hempty)]
          rw [hmsg, exceptBind_err]
    · refine ⟨"AssertionError", ?_⟩
      have hload : load_scan_translator (some (kv :: rest)) =
          (kv.1, ⟨if kv.2.scan_filter = "" then none else some kv.2.scan_filter,
            kv.2.resolution⟩) :: load_scan_translator (some rest) := by
        simp [load_scan_translator]
      rw [hload]
      simp only [checkTranslatorLoop, if_neg hk]

/-- C3 counterexample: on the sorted distinct array `[1, 3]` with target `2`
the two bracketing candidates are exactly equidistant from the target, yet
`find_closest` keeps index `1` (the ceiling insertion point), not the lower
(floor) index `0` that the claim demands. -/
theorem C3_counterexample :
    find_closest [(1 : ℚ), 3] 2 = .ok 1 ∧ |(1 : ℚ) - 2| = |(3 : ℚ) - 2| := by
  constructor
  · norm_num [find_closest, searchsorted, npClip, npGet]
  · norm_num

/-- C3 (amended): for every sorted array `A` of query masses and every target
`t`, if `A` is nonempty then `find_closest` succeeds and the value read back
at the returned numpy index minimises `|A[i] - t|` over all entries of `A`;
on an exact tie between the two bracketing candidates the larger (ceiling)
value is selected — any entry at least as close lies at or below the returned
value. -/
theorem C3_find_closest_min (A : List ℚ) (t : ℚ) (hs : A.Sorted (· ≤ ·))
    (hne : A ≠ []) :
    ∃ i v, find_closest A t = .ok i ∧ npGet A i = some v ∧ v ∈ A ∧
      (∀ x ∈ A, |v - t| ≤ |x - t|) ∧ (∀ x ∈ A, |x - t| ≤ |v - t| → x ≤ v) := by
  obtain ⟨v, hcv, hvmem, hmin, htie⟩ := closestVal_min A t hs hne
  cases hfc : find_closest A t with
  | error e => simp [closestVal, hfc] at hcv
  | ok i =>
    cases hng : npGet A i with
    | none => simp [closestVal, hfc, hng] at hcv
    | some w =>
      have hw : w = v := by simpa [closestVal, hfc, hng] using hcv
      subst hw
      exact ⟨i, w, rfl, hng, hvmem, hmin, htie⟩

/-- C3 witness: the amended theorem applied to `A = [1, 3]`, `t = 0`. -/
theorem C3_witness :
    ∃ i v, find_closest [(1 : ℚ), 3] 0 = .ok i ∧ npGet [(1 : ℚ), 3] i = some v ∧
      v ∈ [(1 : ℚ), 3] ∧ (∀ x ∈ [(1 : ℚ), 3], |v - 0| ≤ |x - 0|) ∧
      (∀ x ∈ [(1 : ℚ), 3], |x - 0| ≤ |v - 0| → x ≤ v) :=
  C3_find_closest_min [(1 : ℚ), 3] 0
    (by norm_num [List.sorted_cons]) (by simp)

/-- C6: for every reference catalogue, polarity, tolerance and nonempty
observed-mass list, only entries of the requested polarity are ever compared,
and the retained set is exactly the compared entries whose ppm error
`(ref - nearest_obs) / ref * 1e6` against a nearest observed mass is within
tolerance in absolute value. -/
theorem C6_ppm_filter (refs : List RefEntry) (p : String) (tol : ℚ)
    (mzList : List ℚ) (hne : mzList ≠ []) :
    (∀ e ∈ comparedEntries refs p, e.polarity = p) ∧
    (∀ e ∈ refs, e.polarity ≠ p → e ∉ comparedEntries refs p) ∧
    ∃ L, retainedEntries refs mzList p tol = .ok L ∧
      ∀ e, e ∈ L ↔ e ∈ comparedEntries refs p ∧
        ∃ v ∈ mzList, (∀ x ∈ mzList, |v - e.precursor_mz| ≤ |x - e.precursor_mz|) ∧
          |ppm_error e.precursor_mz v| ≤ tol := by
  have hsA : (sortMz mzList).Sorted (· ≤ ·) := sortMz_sorted mzList
  have hAne : sortMz mzList ≠ [] := sortMz_ne_nil mzList hne
  refine ⟨?_, ?_, ?_⟩
  · intro e he
    exact ((comparedEntries_mem refs p e).mp he).2
  · intro e _ hep hc
    exact hep ((comparedEntries_mem refs p e).mp hc).2
  · obtain ⟨L, hpf, hmem⟩ := ppmFilter_ok (sortMz mzList) tol hsA hAne
      (comparedEntries refs p)
    refine ⟨L, hpf, ?_⟩
    intro e
    rw [hmem e]
    constructor
    · rintro ⟨hin, v₀, hv₀, hc₀⟩
      obtain ⟨v, hv, hvmem, hmin, -⟩ :=
        closestVal_min (sortMz mzList) e.precursor_mz hsA hAne
      have hvv : v₀ = v := by
        rw [hv] at hv₀
        exact (Except.ok.inj hv₀).symm
      subst hvv
      refine ⟨hin, v₀, (sortMz_mem mzList v₀).mp hvmem, ?_, hc₀⟩
      intro x hx
      exact hmin x ((sortMz_mem mzList x).mpr hx)
    · rintro ⟨hin, v, hvmem, hvmin, hvppm⟩
      obtain ⟨v₀, hv₀, hv₀mem, h₀min, -⟩ :=
        closestVal_min (sortMz mzList) e.precursor_mz hsA hAne
      have hle1 : |v₀ - e.precursor_mz| ≤ |v - e.precursor_mz| :=
        h₀min v ((sortMz_mem mzList v).mpr hvmem)
      have hle2 : |v - e.precursor_mz| ≤ |v₀ - e.precursor_mz| :=
        hvmin v₀ ((sortMz_mem mzList v₀).mp hv₀mem)
      have heq : |v₀ - e.precursor_mz| = |v - e.precursor_mz| :=
        le_antisymm hle1 hle2
      refine ⟨hin, v₀, hv₀, ?_⟩
      rw [ppm_abs_congr e.precursor_mz v₀ v heq]
      exact hvppm

/-- C6 witness: the theorem applied to the specification's own example —
queries `[100, 250.5]`, same-polarity references `100.001` and `250.5003`,
tolerance `50` ppm. -/
theorem C6_witness :
    (∀ e ∈ comparedEntries
        [⟨1, "positive", 100001/1000⟩, ⟨2, "positive", 2505003/10000⟩]
        "positive", e.polarity = "positive") ∧
    (∀ e ∈ [(⟨1, "positive", 100001/1000⟩ : RefEntry), ⟨2, "positive", 2505003/10000⟩],
      e.polarity ≠ "positive" → e ∉ comparedEntries
        [⟨1, "positive", 100001/1000⟩, ⟨2, "positive", 2505003/10000⟩] "positive") ∧
    ∃ L, retainedEntries
        [⟨1, "positive", 100001/1000⟩, ⟨2, "positive", 2505003/10000⟩]
        [(100 : ℚ), 501/2] "positive" 50 = .ok L ∧
      ∀ e, e ∈ L ↔ e ∈ comparedEntries
          [⟨1, "positive", 100001/1000⟩, ⟨2, "positive", 2505003/10000⟩] "positive" ∧
        ∃ v ∈ [(100 : ℚ), 501/2],
          (∀ x ∈ [(100 : ℚ), 501/2], |v - e.precursor_mz| ≤ |x - e.precursor_mz|) ∧
          |ppm_error e.precursor_mz v| ≤ 50 :=
  C6_ppm_filter [⟨1, "positive", 100001/1000⟩, ⟨2, "positive", 2505003/10000⟩]
    "positive" 50 [(100 : ℚ), 501/2] (by simp)

/-- C5 counterexample: building from an EMPTY query-mass list while a
same-polarity reference entry exists raises `IndexError` (numpy fancy
indexing of the empty observed-mass array inside `find_closest`), instead of
completing with an empty index as the claim demands. -/
theorem C5_counterexample :
    get_lipid_library [⟨1, "positive", 400⟩] [] "positive" 5 =
      .error "IndexError" := by
  have hcomp : comparedEntries [⟨1, "positive", 400⟩] "positive" =
      [⟨1, "positive", 400⟩] := by
    simp [comparedEntries]
  have hsort : sortMz ([] : List ℚ) = [] := by simp [sortMz]
  have hcv : closestVal [] (400 : ℚ) = .error "IndexError" := rfl
  unfold get_lipid_library retainedEntries
  rw [hsort, hcomp]
  simp only [ppmFilter, hcv, exceptBind_err]

/-- C5 (amended): with an empty query-mass list the build raises `IndexError`
as soon as any reference entry of the requested polarity exists; only when
the query list is nonempty and zero reference entries pass the ppm filter
does the glue complete, with an empty retained row set (the empty SQL
`IN ()` list is accepted), rather than raising. -/
theorem C5_empty_inputs (refs : List RefEntry) (p : String) (tol : ℚ) :
    (∀ e ∈ refs, e.polarity = p →
      get_lipid_library refs [] p tol = .error "IndexError") ∧
    (∀ mzList : List ℚ, mzList ≠ [] →
      retainedEntries refs mzList p tol = .ok [] →
      get_lipid_library refs mzList p tol = .ok []) := by
  constructor
  · intro e hmem hpol
    have hc : e ∈ comparedEntries refs p := (comparedEntries_mem refs p e).mpr ⟨hmem, hpol⟩
    obtain ⟨e₀, rest, hcomp⟩ := List.exists_cons_of_ne_nil (List.ne_nil_of_mem hc)
    have hsort : sortMz ([] : List ℚ) = [] := by simp [sortMz]
    have hcv : closestVal [] e₀.precursor_mz = .error "IndexError" := rfl
    unfold get_lipid_library retainedEntries
    rw [hsort, hcomp]
    simp only [ppmFilter, hcv, exceptBind_err]
  · intro mzList _ hret
    unfold get_lipid_library
    rw [hret, exceptBind_ok]
    simp [sqlSelectIn]
    rfl

/-- C5 witness: the amended theorem at concrete inputs — one same-polarity
reference entry with empty queries raises, and a far-away reference entry
with a nonempty query list is filtered down to the empty library without
error. -/
theorem C5_witness :
    get_lipid_library [⟨1, "negative", 200⟩] [] "negative" 5 =
      .error "IndexError" ∧
    get_lipid_library [⟨1, "positive", 400⟩] [(100 : ℚ)] "positive" 5 =
      .ok [] := by
  constructor
  · exact (C5_empty_inputs [⟨1, "negative", 200⟩] "negative" 5).1
      ⟨1, "negative", 200⟩ (by simp) rfl
  · refine (C5_empty_inputs [⟨1, "positive", 400⟩] "positive" 5).2
      [(100 : ℚ)] (by simp) ?_
    have hcomp : comparedEntries [⟨1, "positive", 400⟩] "positive" =
        [⟨1, "positive", 400⟩] := by
      simp [comparedEntries]
    have hsort : sortMz [(100 : ℚ)] = [(100 : ℚ)] := by simp [sortMz]
    have hcv : closestVal [(100 : ℚ)] (400 : ℚ) = .ok 100 := by
      have h : find_closest [(100 : ℚ)] 400 = .ok 0 := by
        norm_num [find_closest, searchsorted, npClip, npGet]
      unfold closestVal
      rw [h]
      norm_num [npGet]
    unfold retainedEntries
    rw [hsort, hcomp]
    simp only [ppmFilter, hcv, exceptBind_ok]
    norm_num [ppm_error]

/-- C4: when both tier parameters are supplied to the index builder, the
build raises a `ValueError` (for every library, i.e. before any index work)
exactly when the peak-merge distance differs from twice the peak-window
tolerance, and raises no such error when it equals it. -/
theorem C4_tier_invariant (lib : List RefEntry) (d mt : ℚ) :
    (d ≠ 2 * mt → to_flashentropy lib (some d) (some mt) =
      .error "The values of min_ms2_difference_in_da must be exactly 2x max_ms2_tolerance_in_da.") ∧
    (d = 2 * mt → to_flashentropy lib (some d) (some mt) = .ok lib) := by
  have hstep : tierParamCheck (some d) (some mt) =
      if d ≠ 2 * mt then
        .error "The values of min_ms2_difference_in_da must be exactly 2x max_ms2_tolerance_in_da."
      else .ok () := rfl
  constructor
  · intro h
    unfold to_flashentropy
    rw [hstep, if_pos h, exceptBind_err]
  · intro h
    unfold to_flashentropy
    rw [hstep, if_neg (by simp [h]), exceptBind_ok]

/-- C4 witness: the invariant theorem at `(3, 1)` (violation) and `(2, 1)`
(satisfied), on an empty library. -/
theorem C4_witness :
    to_flashentropy [] (some 3) (some 1) =
      .error "The values of min_ms2_difference_in_da must be exactly 2x max_ms2_tolerance_in_da." ∧
    to_flashentropy [] (some 2) (some 1) = .ok [] :=
  ⟨(C4_tier_invariant [] 3 1).1 (by norm_num), (C4_tier_invariant [] 2 1).2 (by norm_num)⟩

/-- When all earlier keys are valid and select scans, the loop stops at the
first key whose filter selects zero scans, naming that key in the error. -/
theorem checkLoop_first_empty (paramKeys : List String) (scanDf : List ScanEntry) :
    ∀ (rest1 : List (String × RawTransEntry)) (k : String) (e : RawTransEntry)
      (rest2 : List (String × RawTransEntry)),
      (∀ kv ∈ rest1, kv.1 ∈ paramKeys) →
      (∀ kv ∈ rest1, kv.2.scan_filter ≠ "") →
      (∀ kv ∈ rest1, selectScans scanDf kv.2.scan_filter ≠ []) →
      k ∈ paramKeys → e.scan_filter ≠ "" →
      selectScans scanDf e.scan_filter = [] →
      checkTranslatorLoop paramKeys scanDf
          (load_scan_translator (some (rest1 ++ (k, e) :: rest2))) =
        .error ("No scans pulled out by scan translator for parameter key: " ++ k) := by
  intro rest1
  induction rest1 with
  | nil =>
    intro k e rest2 _ _ _ hk hf hempty
    have hload : load_scan_translator (some ((k, e) :: rest2)) =
        (k, ⟨some e.scan_filter, e.resolution⟩) :: load_scan_translator (some rest2) := by
      simp [load_scan_translator, hf]
    rw [List.nil_append, hload]
    simp only [checkTranslatorLoop, if_pos hk]
    rw [if_pos (by simp [hempty])]
  | cons kv rest1' ih =>
    intro k e rest2 hkeys hfil hsel hk hf hempty
    have hk1 : kv.1 ∈ paramKeys := hkeys kv (List.mem_cons_self _ _)
    have hf1 : kv.2.scan_filter ≠ "" := hfil kv (List.mem_cons_self _ _)
    have hs1 : selectScans scanDf kv.2.scan_filter ≠ [] :=
      hsel kv (List.mem_cons_self _ _)
    have hload : load_scan_translator (some ((kv :: rest1') ++ (k, e) :: rest2)) =
        (kv.1, ⟨some kv.2.scan_filter, kv.2.resolution⟩) ::
          load_scan_translator (some (rest1' ++ (k, e) :: rest2)) := by
      simp [load_scan_translator, hf1]
    rw [hload]
    simp only [checkTranslatorLoop, if_pos hk1]
    rw [if_neg (by simpa [List.length_eq_zero] using hs1)]
    rw [ih k e rest2 (fun x hx => hkeys x (List.mem_cons_of_mem _ hx))
      (fun x hx => hfil x (List.mem_cons_of_mem _ hx))
      (fun x hx => hsel x (List.mem_cons_of_mem _ hx)) hk hf hempty]
    rw [exceptBind_err]

/-- C7 counterexample: a one-key table with the documented match-all filter
`""` — which selects every scan, so neither failure condition of the claim
holds — still fails per-file validation (the loaded `None` filter raises
`TypeError`); and a two-key table whose filters both match scan `42` fails
with the fixed overlap message, which does not name the offending scans. -/
theorem C7_counterexample :
    check_scan_translator ["ms2"] [⟨42, "ms2 scan"⟩] (some [("ms2", ⟨"", "high"⟩)]) =
      .error "TypeError: first argument must be string or compiled pattern" ∧
    selectScans [⟨42, "ms2 scan"⟩] "" = [⟨42, "ms2 scan"⟩] ∧
    check_scan_translator ["ms2", "ms2_low"] [⟨42, "ms2 scan"⟩]
      (some [("ms2", ⟨"ms2", "high"⟩), ("ms2_low", ⟨"scan", "low"⟩)]) =
        .error "Overlapping scans pulled out by scan translator" := by
  refine ⟨?_, ?_, ?_⟩ <;> decide

/-- C7 (amended): for a table whose keys are all known parameter profiles and
whose filters are all genuine (non-empty) patterns, per-file validation
succeeds iff every key's filter selects at least one scan and no scan is
selected twice; the error raised at the first zero-match key names that key,
and the overlap error is the fixed message `Overlapping scans pulled out by
scan translator` (it does not name the offending scans).  (A match-all `""`
filter or an unknown key also makes validation fail; see C10.) -/
theorem C7_scan_validation (paramKeys : List String) (scanDf : List ScanEntry)
    (table : List (String × RawTransEntry))
    (hkeys : ∀ kv ∈ table, kv.1 ∈ paramKeys)
    (hfil : ∀ kv ∈ table, kv.2.scan_filter ≠ "") :
    (check_scan_translator paramKeys scanDf (some table) = .ok () ↔
      (∀ kv ∈ table, selectScans scanDf kv.2.scan_filter ≠ []) ∧
        (scansPulledOut scanDf table).Nodup) ∧
    ((∀ kv ∈ table, selectScans scanDf kv.2.scan_filter ≠ []) →
      ¬(scansPulledOut scanDf table).Nodup →
      check_scan_translator paramKeys scanDf (some table) =
        .error "Overlapping scans pulled out by scan translator") ∧
    (∀ (rest1 : List (String × RawTransEntry)) k e rest2,
      table = rest1 ++ (k, e) :: rest2 →
      (∀ kv ∈ rest1, selectScans scanDf kv.2.scan_filter ≠ []) →
      selectScans scanDf e.scan_filter = [] →
      check_scan_translator paramKeys scanDf (some table) =
        .error ("No scans pulled out by scan translator for parameter key: " ++ k)) := by
  refine ⟨⟨?_, ?_⟩, ?_, ?_⟩
  · intro hok
    have hall : ∀ kv ∈ table, selectScans scanDf kv.2.scan_filter ≠ [] := by
      intro kv hkv
      by_contra hempty
      obtain ⟨msg, hmsg⟩ := checkLoop_err paramKeys scanDf table
        ⟨kv, hkv, hempty⟩
      rw [check_scan_translator, hmsg, exceptBind_err] at hok
      cases hok
    refine ⟨hall, ?_⟩
    have hloop := checkLoop_ok paramKeys scanDf table hkeys hfil hall
    rw [check_scan_translator, hloop, exceptBind_ok] at hok
    split at hok
    · cases hok
    · rename_i hcond
      exact dedup_length_eq_iff.mp (of_not_not hcond)
  · rintro ⟨hall, hnodup⟩
    have hloop := checkLoop_ok paramKeys scanDf table hkeys hfil hall
    rw [check_scan_translator, hloop, exceptBind_ok]
    rw [if_neg (by simp [dedup_length_eq_iff.mpr hnodup])]
  · intro hall hover
    have hloop := checkLoop_ok paramKeys scanDf table hkeys hfil hall
    rw [check_scan_translator, hloop, exceptBind_ok]
    rw [if_pos ?_]
    intro hlen
    exact hover (dedup_length_eq_iff.mp hlen)
  · intro rest1 k e rest2 htab hsel1 hempty
    subst htab
    have hloop := checkLoop_first_empty paramKeys scanDf rest1 k e rest2
      (fun x hx => hkeys x (List.mem_append_left _ hx))
      (fun x hx => hfil x (List.mem_append_left _ hx))
      hsel1
      (hkeys (k, e) (List.mem_append_right _ (List.mem_cons_self _ _)))
      (hfil (k, e) (List.mem_append_right _ (List.mem_cons_self _ _)))
      hempty
    rw [check_scan_translator, hloop, exceptBind_err]

/-- C7 witness: the amended theorem at a two-key table over a two-scan frame
where each key selects exactly its own scan: validation succeeds. -/
theorem C7_witness :
    check_scan_translator ["ms2", "ms2_low"] [⟨1, "hcd scan"⟩, ⟨2, "cid scan"⟩]
      (some [("ms2", ⟨"hcd", "high"⟩), ("ms2_low", ⟨"cid", "low"⟩)]) = .ok () :=
  ((C7_scan_validation ["ms2", "ms2_low"] [⟨1, "hcd scan"⟩, ⟨2, "cid scan"⟩]
      [("ms2", ⟨"hcd", "high"⟩), ("ms2_low", ⟨"cid", "low"⟩)]
      (by decide) (by decide)).1).mpr (by decide)

/-- C9: with no routing table supplied the resolved table is exactly one key
with the match-all (`None`) filter and the high tier; under it the
high-resolution bucket selection takes the whole tandem-scan frame (every
scan with a loaded spectrum), the low-resolution bucket is empty, and the
low-resolution search path is never invoked. -/
theorem C9_default_routing (ms2df : List ScanEntry) (msKeys : List Nat) :
    load_scan_translator none = [("ms2", ⟨none, "high"⟩)] ∧
    routedScans (load_scan_translator none) "high" ms2df msKeys =
      (ms2df.map (fun s => s.scan)).filter (fun x => msKeys.contains x) ∧
    routedScans (load_scan_translator none) "low" ms2df msKeys = [] ∧
    lowSearchInvoked (load_scan_translator none) ms2df msKeys = false := by
  refine ⟨rfl, ?_, ?_, ?_⟩
  · simp [routedScans, load_scan_translator, defaultScanTranslator]
  · simp [routedScans, load_scan_translator, defaultScanTranslator]
  · simp [lowSearchInvoked, routedScans, load_scan_translator, defaultScanTranslator]

/-- C10: a routing table containing a key with the documented match-all filter
`""` is loaded with that filter rewritten to `None`, and per-file validation
then raises on every scan frame and parameter-profile set — a match-all key
can never pass `check_scan_translator`. -/
theorem C10_matchall_validation (paramKeys : List String) (scanDf : List ScanEntry)
    (table : List (String × RawTransEntry))
    (h : ∃ kv ∈ table, kv.2.scan_filter = "") :
    (∀ kv ∈ table, kv.2.scan_filter = "" →
      (kv.1, (⟨none, kv.2.resolution⟩ : TransEntry)) ∈ load_scan_translator (some table)) ∧
    ∃ msg, check_scan_translator paramKeys scanDf (some table) = .error msg := by
  constructor
  · intro kv hkv hf
    have hfe : (kv.1, (⟨none, kv.2.resolution⟩ : TransEntry)) =
        (kv.1, ⟨if kv.2.scan_filter = "" then none else some kv.2.scan_filter,
          kv.2.resolution⟩) := by
      simp [hf]
    rw [hfe, load_scan_translator]
    simp only [Option.getD_some]
    exact List.mem_map_of_mem _ hkv
  · obtain ⟨msg, hmsg⟩ := checkLoop_matchall_err paramKeys scanDf table h
    exact ⟨msg, by rw [check_scan_translator, hmsg, exceptBind_err]⟩

/-- C10 witness: the theorem at the one-key match-all table over a one-scan
frame. -/
theorem C10_witness :
    (∀ kv ∈ [("ms2", (⟨"", "high"⟩ : RawTransEntry))], kv.2.scan_filter = "" →
      (kv.1, (⟨none, kv.2.resolution⟩ : TransEntry)) ∈
        load_scan_translator (some [("ms2", ⟨"", "high"⟩)])) ∧
    ∃ msg, check_scan_translator ["ms2"] [⟨7, "any scan"⟩]
      (some [("ms2", ⟨"", "high"⟩)]) = .error msg :=
  C10_matchall_validation ["ms2"] [⟨7, "any scan"⟩] [("ms2", ⟨"", "high"⟩)]
    ⟨("ms2", ⟨"", "high"⟩), by simp, rfl⟩

/-- C8: for any requested worker count `N ≥ 1` and job count, dispatch is
sequential exactly when `N = 1`, the job count is 1, or the (never-set)
format exclusivity flag is on; otherwise the batch runs under `N` parallel
workers — and exactly one strategy is chosen for the whole batch. -/
theorem C8_dispatch_rule (cores numFiles : Nat) (fileExtension : String)
    (h : 1 ≤ cores) :
    (chooseDispatch cores numFiles = some .sequential ↔
      cores = 1 ∨ numFiles = 1 ∨ requiresExclusiveAccess fileExtension = true) ∧
    (¬(cores = 1 ∨ numFiles = 1 ∨ requiresExclusiveAccess fileExtension = true) →
      chooseDispatch cores numFiles = some (.parallel cores)) ∧
    (∃! s, chooseDispatch cores numFiles = some s) := by
  have hex : requiresExclusiveAccess fileExtension = false := rfl
  by_cases hseq : cores = 1 ∨ numFiles = 1
  · have hd : chooseDispatch cores numFiles = some .sequential := by
      unfold chooseDispatch
      rw [if_pos hseq]
    refine ⟨?_, ?_, .sequential, hd, ?_⟩
    · rw [hd]
      simp only [hex]
      constructor
      · intro _
        rcases hseq with h1 | h2
        · exact Or.inl h1
        · exact Or.inr (Or.inl h2)
      · intro _
        trivial
    · intro hn
      exact absurd (hseq.imp id Or.inl) hn
    · intro y hy
      rw [hd] at hy
      exact (Option.some.inj hy).symm
  · have hgt : cores > 1 := by
      push_neg at hseq
      omega
    have hd : chooseDispatch cores numFiles = some (.parallel cores) := by
      unfold chooseDispatch
      rw [if_neg hseq, if_pos hgt]
    refine ⟨?_, fun _ => hd, .parallel cores, hd, ?_⟩
    · rw [hd]
      simp only [hex]
      constructor
      · intro hc
        exact absurd (Option.some.inj hc) (by simp)
      · intro hor
        push_neg at hseq
        rcases hor with h1 | h2 | h3
        · exact absurd h1 hseq.1
        · exact absurd h2 hseq.2
        · cases h3
    · intro y hy
      rw [hd] at hy
      exact (Option.some.inj hy).symm

/-- C8 witness: the dispatch rule at 4 workers, 3 files, an `.mzML` input. -/
theorem C8_witness :
    (chooseDispatch 4 3 = some .sequential ↔
      4 = 1 ∨ 3 = 1 ∨ requiresExclusiveAccess ".mzML" = true) ∧
    (¬(4 = 1 ∨ 3 = 1 ∨ requiresExclusiveAccess ".mzML" = true) →
      chooseDispatch 4 3 = some (.parallel 4)) ∧
    (∃! s, chooseDispatch 4 3 = some s) :=
  C8_dispatch_rule 4 3 ".mzML" (by norm_num)

/-- C1 counterexample: a batch of three jobs whose second job fails — the
wrapper re-raises after logging, so batch collection aborts with the job's
exception instead of producing a three-entry result set. -/
theorem C1_counterexample :
    batchOutcome [process_complete_workflow "f1" "out1" (.ok ()),
      process_complete_workflow "f2" "out2" (.error "boom"),
      process_complete_workflow "f3" "out3" (.ok ())] = .error "boom" := by
  decide

/-- C1 (amended): each failing job's exception is caught at the job boundary
and echoed with the file identity, but then re-raised; batch-level collection
therefore propagates the first failure — when any job fails the batch result
is that exception (no K-entry result set), and only when every job succeeds
does collection return exactly one entry per job. -/
theorem C1_batch_aborts (jobs : List (String × String × Except String Unit)) :
    (∀ f o e, (process_complete_workflow f o (.error e)).log =
        ["Error processing " ++ f ++ ": " ++ e] ∧
      (process_complete_workflow f o (.error e)).outcome = .error e) ∧
    ((∃ j ∈ jobs, ∃ e, j.2.2 = .error e) →
      ∃ msg, batchOutcome
        (jobs.map (fun j => process_complete_workflow j.1 j.2.1 j.2.2)) =
          .error msg) ∧
    ((∀ j ∈ jobs, j.2.2 = .ok ()) →
      ∃ rs, batchOutcome
        (jobs.map (fun j => process_complete_workflow j.1 j.2.1 j.2.2)) =
          .ok rs ∧ rs.length = jobs.length) := by
  refine ⟨fun f o e => ⟨rfl, rfl⟩, ?_, ?_⟩
  · induction jobs with
    | nil => rintro ⟨j, hj, -⟩; simp at hj
    | cons j rest ih =>
      rintro ⟨j', hj', e', hje'⟩
      cases hout : j.2.2 with
      | error e =>
        refine ⟨e, ?_⟩
        have ho : (process_complete_workflow j.1 j.2.1 j.2.2).outcome = .error e := by
          rw [hout]
          rfl
        simp only [List.map_cons, batchOutcome, ho, exceptBind_err]
      | ok u =>
        have hj'' : j' ∈ rest := by
          rcases List.mem_cons.mp hj' with rfl | hx
          · rw [hout] at hje'; cases hje'
          · exact hx
        obtain ⟨msg, hmsg⟩ := ih ⟨j', hj'', e', hje'⟩
        refine ⟨msg, ?_⟩
        have ho : (process_complete_workflow j.1 j.2.1 j.2.2).outcome =
            .ok ("Completed: " ++ j.2.1) := by
          rw [hout]
          rfl
        simp only [List.map_cons, batchOutcome, ho, exceptBind_ok]
        rw [hmsg, exceptBind_err]
  · induction jobs with
    | nil => intro _; exact ⟨[], rfl, rfl⟩
    | cons j rest ih =>
      intro hall
      obtain ⟨rs, hrs, hlen⟩ := ih (fun x hx => hall x (List.mem_cons_of_mem _ hx))
      have hout : j.2.2 = .ok () := hall j (List.mem_cons_self _ _)
      refine ⟨("Completed: " ++ j.2.1) :: rs, ?_, by simp [hlen]⟩
      have ho : (process_complete_workflow j.1 j.2.1 j.2.2).outcome =
          .ok ("Completed: " ++ j.2.1) := by
        rw [hout]
        rfl
      simp only [List.map_cons, batchOutcome, ho, exceptBind_ok]
      rw [hrs, exceptBind_ok]

/-- C1 witness: the amended theorem at a two-job batch with one failure (the
batch aborts with the exception) and a one-job all-success batch (one result
entry). -/
theorem C1_witness :
    (∃ msg, batchOutcome
      ([("f1", "o1", (.ok () : Except String Unit)), ("f2", "o2", .error "x")].map
        (fun j => process_complete_workflow j.1 j.2.1 j.2.2)) = .error msg) ∧
    (∃ rs, batchOutcome
      ([("g", "p", (.ok () : Except String Unit))].map
        (fun j => process_complete_workflow j.1 j.2.1 j.2.2)) = .ok rs ∧
      rs.length = 1) :=
  ⟨(C1_batch_aborts [("f1", "o1", .ok ()), ("f2", "o2", .error "x")]).2.1
      ⟨("f2", "o2", .error "x"), by simp, "x", rfl⟩,
   (C1_batch_aborts [("g", "p", .ok ())]).2.2 (by simp)⟩

/-- C2: evaluating the `prep_metadata` polarity merge on two files sharing the
positive polarity — `dict.update` overwrites, so the precursor query set is
the LAST file's list `[200]` and the first file's mass `100` is dropped,
contradicting the claimed deduplicated union. -/
theorem C2_overwrite_eval :
    prep_metadata_mzs [("positive", [(100 : ℚ)]), ("positive", [(200 : ℚ)])] =
      ⟨some [(200 : ℚ)], none⟩ ∧ (100 : ℚ) ∉ [(200 : ℚ)] := by
  constructor
  · rfl
  · norm_num

end MetaMS
